import Mathlib

/-!
Verification development for the must-gather obfuscation-config discovery
program (`discover_config.py`).  The Python source is shallowly embedded:
the filesystem tree is a list of file records, Python dicts are ordered
association lists, Python sets are insertion-ordered duplicate-free lists,
and `re.findall` is modelled by a small backtracking regular-expression
engine with Python's leftmost, alternation-ordered, greedy semantics.
Shannon entropy (Python floats) is modelled over the reals.
-/

/-! ## A small regular-expression engine (Python `re` semantics) -/

/-- Abstract syntax of the regular expressions the program uses: literal
strings, case-insensitive literal strings (for `re.IGNORECASE`), character
classes given as unions of closed character ranges, concatenation,
prioritized alternation, and greedy Kleene star. -/
inductive RE where
  | eps
  | lit (cs : List Char)
  | ilit (cs : List Char)
  | cls (ranges : List (Char × Char))
  | cat (a b : RE)
  | alt (a b : RE)
  | star (r : RE)

/-- Character membership in a class (a union of closed ranges). -/
def clsMem (ranges : List (Char × Char)) (c : Char) : Bool :=
  ranges.any (fun r => r.1 ≤ c && c ≤ r.2)

/-- ASCII lowercasing, as Python's `str.lower` acts on the ASCII range. -/
def asciiLower (c : Char) : Char :=
  if 'A' ≤ c && c ≤ 'Z' then Char.ofNat (c.toNat + 32) else c

/-- Case-insensitive test that `p` is a prefix of `s` (ASCII folding). -/
def ilitPre : List Char → List Char → Bool
  | [], _ => true
  | _ :: _, [] => false
  | p :: ps, c :: cs => (asciiLower p = asciiLower c) && ilitPre ps cs

/-- All lengths of prefixes of `s` matched by `r`, listed in Python's
backtracking priority order (alternation left first, star greedy), with a
fuel argument bounding recursion depth. -/
def matchLensF : Nat → RE → List Char → List Nat
  | 0, _, _ => []
  | _ + 1, RE.eps, _ => [0]
  | _ + 1, RE.lit p, s => if p.isPrefixOf s then [p.length] else []
  | _ + 1, RE.ilit p, s => if ilitPre p s then [p.length] else []
  | _ + 1, RE.cls rs, s =>
    match s with
    | [] => []
    | c :: _ => if clsMem rs c then [1] else []
  | f + 1, RE.cat a b, s =>
    (matchLensF f a s).flatMap (fun n => (matchLensF f b (s.drop n)).map (· + n))
  | f + 1, RE.alt a b, s => matchLensF f a s ++ matchLensF f b s
  | f + 1, RE.star r, s =>
    ((matchLensF f r s).filter (fun n => 0 < n)).flatMap
      (fun n => (matchLensF f (RE.star r) (s.drop n)).map (· + n)) ++ [0]

/-- Structural size of a regular expression, used to pick sufficient fuel. -/
def reSize : RE → Nat
  | RE.eps => 1
  | RE.lit p => p.length + 1
  | RE.ilit p => p.length + 1
  | RE.cls _ => 1
  | RE.cat a b => reSize a + reSize b + 1
  | RE.alt a b => reSize a + reSize b + 1
  | RE.star r => reSize r + 1

/-- Fuel that dominates the recursion depth of `matchLensF` on `r`, `s`:
every star unrolling consumes at least one character. -/
def reFuel (r : RE) (s : List Char) : Nat :=
  (reSize r + 2) * (s.length + 2)

/-- Length of the match `re.match(r, s)` would produce at the start of `s`
(leftmost, priority-first), if any. -/
def firstMatchLen (r : RE) (s : List Char) : Option Nat :=
  (matchLensF (reFuel r s) r s).head?

/-- Number of non-overlapping matches `re.findall` produces, scanning left
to right; a failed position advances by one character. -/
def findallCountAux (r : RE) : Nat → List Char → Nat
  | 0, _ => 0
  | f + 1, s =>
    match firstMatchLen r s with
    | some 0 => 1 + (match s with | [] => 0 | _ :: t => findallCountAux r f t)
    | some (n + 1) => 1 + findallCountAux r f (s.drop (n + 1))
    | none => match s with | [] => 0 | _ :: t => findallCountAux r f t

/-- Number of non-overlapping `re.findall` matches of `r` in `s`. -/
def findallCount (r : RE) (s : List Char) : Nat :=
  findallCountAux r (s.length + 1) s

/-- Exact repetition `r{n}`, unfolded as `n`-fold concatenation. -/
def rePow (r : RE) : Nat → RE
  | 0 => RE.eps
  | n + 1 => RE.cat r (rePow r n)

/-- One-or-more repetition `r+`. -/
def rePlus (r : RE) : RE := RE.cat r (RE.star r)

/-- Bounded-below repetition `r{n,}`. -/
def reAtLeast (r : RE) (n : Nat) : RE := RE.cat (rePow r n) (RE.star r)

/-- Greedy option `r?` (preferring the match, as Python does). -/
def reOpt (r : RE) : RE := RE.alt r RE.eps

/-- Concatenation of a sequence of regular expressions. -/
def reSeq (l : List RE) : RE := l.foldr RE.cat RE.eps

/-! Character classes used by the source's patterns. -/

def digitCls : List (Char × Char) := [('0', '9')]
def upperCls : List (Char × Char) := [('A', 'Z')]
def lowerDigitCls : List (Char × Char) := [('a', 'z'), ('0', '9')]
def alnumCls : List (Char × Char) := [('A', 'Z'), ('a', 'z'), ('0', '9')]
def alnumUnderCls : List (Char × Char) := [('A', 'Z'), ('a', 'z'), ('0', '9'), ('_', '_')]
def b64UrlCls : List (Char × Char) := [('A', 'Z'), ('a', 'z'), ('0', '9'), ('_', '_'), ('-', '-')]
def hexLowerCls : List (Char × Char) := [('0', '9'), ('a', 'f')]
def secretKeyCls : List (Char × Char) :=
  [('A', 'Z'), ('a', 'z'), ('0', '9'), ('/', '/'), ('+', '+'), ('=', '=')]
def googleKeyCls : List (Char × Char) := [('0', '9'), ('A', 'Z'), ('a', 'z'), ('-', '-'), ('_', '_')]

/-- Python's `\s` over the ASCII range: space, tab, newline, carriage
return, vertical tab, form feed. -/
def wsCls : List (Char × Char) :=
  [(' ', ' '), ('\t', '\t'), ('\n', '\n'), ('\r', '\r'), ('\x0b', '\x0b'), ('\x0c', '\x0c')]

/-! ## The fixed secret-pattern catalog (`SECRET_PATTERNS`) -/

/-- Engine form of `AKIA[0-9A-Z]{16}`. -/
def awsAccessKeyRE : RE :=
  RE.cat (RE.lit "AKIA".data) (rePow (RE.cls [('0', '9'), ('A', 'Z')]) 16)

/-- Engine form of `aws_secret_access_key\s*[:=]\s*[A-Za-z0-9/+=]{40}`. -/
def awsSecretKeyRE : RE :=
  reSeq [RE.lit "aws_secret_access_key".data, RE.star (RE.cls wsCls),
    RE.cls [(':', ':'), ('=', '=')], RE.star (RE.cls wsCls), rePow (RE.cls secretKeyCls) 40]

/-- Engine form of `(ghp_[A-Za-z0-9]{36}|github_pat_[A-Za-z0-9_]{82})`. -/
def githubTokenRE : RE :=
  RE.alt (RE.cat (RE.lit "ghp_".data) (rePow (RE.cls alnumCls) 36))
    (RE.cat (RE.lit "github_pat_".data) (rePow (RE.cls alnumUnderCls) 82))

/-- Engine form of `xox[pbar]-[0-9]{12}-[0-9]{12}-[0-9]{12}-[a-z0-9]{32}`. -/
def slackTokenRE : RE :=
  reSeq [RE.lit "xox".data, RE.cls [('p', 'p'), ('b', 'b'), ('a', 'a'), ('r', 'r')],
    RE.lit "-".data, rePow (RE.cls digitCls) 12, RE.lit "-".data, rePow (RE.cls digitCls) 12,
    RE.lit "-".data, rePow (RE.cls digitCls) 12, RE.lit "-".data, rePow (RE.cls lowerDigitCls) 32]

/-- Engine form of `AIza[0-9A-Za-z-_]{35}`. -/
def googleApiKeyRE : RE :=
  RE.cat (RE.lit "AIza".data) (rePow (RE.cls googleKeyCls) 35)

/-- Engine form of `-----BEGIN (RSA |DSA |EC |OPENSSH )?PRIVATE KEY-----`. -/
def privateKeyHeaderRE : RE :=
  reSeq [RE.lit "-----BEGIN ".data,
    reOpt (RE.alt (RE.lit "RSA ".data) (RE.alt (RE.lit "DSA ".data)
      (RE.alt (RE.lit "EC ".data) (RE.lit "OPENSSH ".data)))),
    RE.lit "PRIVATE KEY-----".data]

/-- Engine form of
`[0-9a-f]{8}-[0-9a-f]{4}-[0-9a-f]{4}-[0-9a-f]{4}-[0-9a-f]{12}`. -/
def azureClientIdRE : RE :=
  reSeq [rePow (RE.cls hexLowerCls) 8, RE.lit "-".data, rePow (RE.cls hexLowerCls) 4,
    RE.lit "-".data, rePow (RE.cls hexLowerCls) 4, RE.lit "-".data, rePow (RE.cls hexLowerCls) 4,
    RE.lit "-".data, rePow (RE.cls hexLowerCls) 12]

/-- Engine form of `eyJ[A-Za-z0-9_-]+\.eyJ[A-Za-z0-9_-]+\.[A-Za-z0-9_-]+`. -/
def jwtTokenRE : RE :=
  reSeq [RE.lit "eyJ".data, rePlus (RE.cls b64UrlCls), RE.lit ".".data,
    RE.lit "eyJ".data, rePlus (RE.cls b64UrlCls), RE.lit ".".data, rePlus (RE.cls b64UrlCls)]

/-- Engine form of `api[_-]?key[_-]?[=:]\s*['"]?[A-Za-z0-9_\-]{20,}['"]?`. -/
def genericApiKeyRE : RE :=
  reSeq [RE.lit "api".data, reOpt (RE.cls [('_', '_'), ('-', '-')]), RE.lit "key".data,
    reOpt (RE.cls [('_', '_'), ('-', '-')]), RE.cls [('=', '='), (':', ':')],
    RE.star (RE.cls wsCls), reOpt (RE.cls [(Char.ofNat 39, Char.ofNat 39), ('\x22', '\x22')]),
    reAtLeast (RE.cls b64UrlCls) 20,
    reOpt (RE.cls [(Char.ofNat 39, Char.ofNat 39), ('\x22', '\x22')])]

/-- One entry of the fixed secret-signature catalog: the signature name,
the regular-expression source string (as it is emitted into the generated
config), and its engine form used for scanning. -/
structure SecretSig where
  name : String
  pattern : String
  re : RE

/-- The fixed `SECRET_PATTERNS` catalog, in the source's dict order. -/
def SECRET_PATTERNS : List SecretSig :=
  [⟨"aws_access_key", "AKIA[0-9A-Z]\x7b16\x7d", awsAccessKeyRE⟩,
   ⟨"aws_secret_key", "aws_secret_access_key\\s*[:=]\\s*[A-Za-z0-9/+=]\x7b40\x7d", awsSecretKeyRE⟩,
   ⟨"github_token", "(ghp_[A-Za-z0-9]\x7b36\x7d|github_pat_[A-Za-z0-9_]\x7b82\x7d)", githubTokenRE⟩,
   ⟨"slack_token", "xox[pbar]-[0-9]\x7b12\x7d-[0-9]\x7b12\x7d-[0-9]\x7b12\x7d-[a-z0-9]\x7b32\x7d",
     slackTokenRE⟩,
   ⟨"google_api_key", "AIza[0-9A-Za-z-_]\x7b35\x7d", googleApiKeyRE⟩,
   ⟨"private_key_header", "-----BEGIN (RSA |DSA |EC |OPENSSH )?PRIVATE KEY-----",
     privateKeyHeaderRE⟩,
   ⟨"azure_client_id",
     "[0-9a-f]\x7b8\x7d-[0-9a-f]\x7b4\x7d-[0-9a-f]\x7b4\x7d-[0-9a-f]\x7b4\x7d-[0-9a-f]\x7b12\x7d",
     azureClientIdRE⟩,
   ⟨"jwt_token", "eyJ[A-Za-z0-9_-]+\\.eyJ[A-Za-z0-9_-]+\\.[A-Za-z0-9_-]+", jwtTokenRE⟩,
   ⟨"generic_api_key",
     "api[_-]?key[_-]?[=:]\\s*[\x27\x22]?[A-Za-z0-9_\\-]\x7b20,\x7d[\x27\x22]?",
     genericApiKeyRE⟩]

/-! ## Decimal rendering and the `keyword-NNNN` tokens -/

/-- The decimal digit character for `d` (defined for `d < 10`). -/
def digitChar10 (d : Nat) : Char :=
  match d with
  | 0 => '0' | 1 => '1' | 2 => '2' | 3 => '3' | 4 => '4'
  | 5 => '5' | 6 => '6' | 7 => '7' | 8 => '8' | 9 => '9'
  | _ => '0'

/-- Numeric value of a decimal digit character. -/
def charVal (c : Char) : Nat := c.toNat - 48

/-- Little-endian decimal digit characters of `n` (`[]` for `0`), with a
fuel argument (any fuel at least the digit count works). -/
def natToCharsRevF : Nat → Nat → List Char
  | 0, _ => []
  | f + 1, n => if n = 0 then [] else digitChar10 (n % 10) :: natToCharsRevF f (n / 10)

/-- Little-endian decimal digit characters of `n` (`[]` for `0`). -/
def natToCharsRev (n : Nat) : List Char :=
  natToCharsRevF (n + 1) n

/-- Decimal rendering of `n`, most significant digit first, as Python's
`str`/format produces it. -/
def natRepr10 (n : Nat) : List Char :=
  if n = 0 then ['0'] else (natToCharsRev n).reverse

/-- Zero-padding to (at least) four characters, Python's `f'{n:04d}'`. -/
def pad4 (n : Nat) : List Char :=
  List.replicate (4 - (natRepr10 n).length) '0' ++ natRepr10 n

/-- The synthetic replacement token `keyword-<4-digit zero-padded i>`. -/
def tokenFor (i : Nat) : String :=
  "keyword-" ++ String.mk (pad4 i)

/-- Lexicographic (code-point) comparison of character lists: Python's
string `<=`. -/
def charListLe : List Char → List Char → Bool
  | [], _ => true
  | _ :: _, [] => false
  | a :: as, b :: bs => if a < b then true else if b < a then false else charListLe as bs

/-- Python's string `<=`: lexicographic by code point. -/
def strLe (a b : String) : Bool := charListLe a.data b.data

/-- Insertion into a sorted list of strings. -/
def insertSorted (x : String) : List String → List String
  | [] => [x]
  | y :: ys => if strLe x y then x :: y :: ys else y :: insertSorted x ys

/-- Python's `sorted` on strings: the (unique) lexicographically
nondecreasing reordering. -/
def sortedStrings (l : List String) : List String :=
  l.foldr insertSorted []

/-- The replacement table built by `generate_config` (source lines
266-270): keywords sorted lexicographically, each mapped to the token with
its 1-based position in that order. -/
def buildReplacementTable (keywords : List String) : List (String × String) :=
  (sortedStrings keywords).enum.map (fun p => (p.2, tokenFor (p.1 + 1)))

/-! ## Filesystem model -/

/-- A parsed namespace manifest as `yaml.safe_load` exposes it to the
keyword pass: `metadata.name` when the `data and 'metadata' in data and
'name' in data['metadata']` guard succeeds (collapsed to `nameVal = none`
when it fails), and the `metadata.labels` entries (`[]` when absent). -/
structure NsDoc where
  nameVal : Option String
  labels : List (String × String)
deriving DecidableEq

/-- One filesystem entry of the must-gather tree: its path segments, the
`is_file()` flag, its `stat().st_size`, whether opening and reading it
succeeds, its decoded text content, and the result of YAML-parsing it as
a namespace manifest (`none` when parsing raises). -/
structure MGFile where
  path : List String
  isFile : Bool
  size : Nat
  readable : Bool
  content : String
  nsParse : Option NsDoc
deriving DecidableEq

/-- Glob matching for one path segment (fueled; every recursive call
shrinks the combined length, so fuel `p.length + s.length + 1` suffices):
literal characters plus the `*` wildcard, which matches any (possibly
empty) character sequence. -/
def segMatchF : Nat → List Char → List Char → Bool
  | 0, _, _ => false
  | f + 1, p, s =>
    match p, s with
    | [], [] => true
    | [], _ :: _ => false
    | '*' :: ps, s =>
      segMatchF f ps s || (match s with | [] => false | _ :: t => segMatchF f ('*' :: ps) t)
    | _ :: _, [] => false
    | q :: ps, c :: t => (q = c) && segMatchF f ps t

/-- Glob matching for one path segment. -/
def segMatch (p : List Char) (s : List Char) : Bool :=
  segMatchF (p.length + s.length + 1) p s

/-- Glob matching over path segments (fueled analogously); a `**` pattern
segment matches any (possibly empty) run of path segments, as
`pathlib.Path.glob` treats it. -/
def globMatchF : Nat → List (List Char) → List (List Char) → Bool
  | 0, _, _ => false
  | f + 1, ps, segs =>
    match ps, segs with
    | [], [] => true
    | [], _ :: _ => false
    | p :: pr, segs =>
      if p = ['*', '*'] then
        globMatchF f pr segs || (match segs with | [] => false | _ :: t => globMatchF f (p :: pr) t)
      else
        match segs with
        | [] => false
        | s :: t => segMatch p s && globMatchF f pr t

/-- Glob matching over path segments. -/
def globMatch (ps : List (List Char)) (segs : List (List Char)) : Bool :=
  globMatchF (ps.length + segs.length + 1) ps segs

/-- Does `path` match the glob pattern `pat` (both as segment lists)? -/
def pathMatches (pat : List String) (path : List String) : Bool :=
  globMatch (pat.map String.data) (path.map String.data)

/-- The entries of the tree that `Path(root).glob(pattern)` yields, in
tree order. -/
def globFiles (tree : List MGFile) (pat : List String) : List MGFile :=
  tree.filter (fun f => pathMatches pat f.path)

/-! ## `scan_for_secret_patterns` -/

/-- The `sample_patterns` glob list of `scan_for_secret_patterns`. -/
def sample_patterns : List (List String) :=
  [["**", "cluster-scoped-resources", "**", "*.yaml"],
   ["**", "namespaces", "**", "*.yaml"],
   ["**", "pods", "**", "logs", "*.log"]]

/-- A `defaultdict(int)` increment: add `v` at key `k`, inserting the key
at the end in first-insertion order as Python dicts do. -/
def bumpTally (t : List (String × Nat)) (k : String) (v : Nat) : List (String × Nat) :=
  if t.any (fun p => p.1 = k) then
    t.map (fun p => if p.1 = k then (p.1, p.2 + v) else p)
  else t ++ [(k, v)]

/-- The inner pattern loop of `scan_for_secret_patterns`: apply every
catalog signature to the (already truncated) content, bumping the tally by
the number of matches when there are any. -/
def applyPatterns (content : List Char) (t : List (String × Nat)) : List (String × Nat) :=
  SECRET_PATTERNS.foldl
    (fun acc sig =>
      let m := findallCount sig.re content
      if 0 < m then bumpTally acc sig.name m else acc)
    t

/-- State of the secret scan: the findings tally, the count of files
scanned against the 500-file budget, and (for specification purposes) the
files that were actually opened for content scanning. -/
structure ScanState where
  findings : List (String × Nat)
  scanned : Nat
  opened : List MGFile

/-- Processing of one globbed entry by `scan_for_secret_patterns`: entries
failing `is_file()` or the 10 MiB size ceiling are skipped unopened;
opened files are read to at most 1 MiB; unreadable files raise and are
skipped without counting against the budget. -/
def processScanFile (st : ScanState) (f : MGFile) : ScanState :=
  if f.isFile && f.size < 10 * 1024 * 1024 then
    if f.readable then
      { findings := applyPatterns (f.content.data.take (1024 * 1024)) st.findings,
        scanned := st.scanned + 1,
        opened := st.opened ++ [f] }
    else { st with opened := st.opened ++ [f] }
  else st

/-- The per-pattern file loop, with the `scanned_files >= max_files`
break checked before each entry. -/
def scanFilesList : ScanState → List MGFile → ScanState
  | st, [] => st
  | st, f :: fs =>
    if 500 ≤ st.scanned then st else scanFilesList (processScanFile st f) fs

/-- The full secret scan over the tree, pattern by pattern. -/
def scanExtended (tree : List MGFile) : ScanState :=
  sample_patterns.foldl (fun st pat => scanFilesList st (globFiles tree pat)) ⟨[], 0, []⟩

/-- `scan_for_secret_patterns`: the findings tally of the secret scan. -/
def scan_for_secret_patterns (tree : List MGFile) : List (String × Nat) :=
  (scanExtended tree).findings

/-! ## `discover_domain_names` -/

/-- The fixed platform-domain exclusion set (`exclude_domains`). -/
def exclude_domains : List String :=
  ["cluster.local", "svc", "pod", "node",
   "openshift.io", "k8s.io", "kubernetes.io",
   "redhat.com", "coreos.com"]

/-- Python's `str.endswith`. -/
def pyEndsWith (s suf : String) : Bool := suf.data.isSuffixOf s.data

/-- Python's `str.startswith`. -/
def pyStartsWith (s pre : String) : Bool := pre.data.isPrefixOf s.data

/-- The `route_patterns` glob list of `discover_domain_names`. -/
def route_patterns : List (List String) :=
  [["**", "cluster-scoped-resources", "config.openshift.io", "ingresses", "*.yaml"],
   ["**", "namespaces", "**", "route.openshift.io", "routes", "*.yaml"],
   ["**", "namespaces", "**", "networking.k8s.io", "ingresses", "*.yaml"]]

/-- Hostname character class `[a-z0-9.-]` under `re.IGNORECASE`. -/
def hostCls : List (Char × Char) :=
  [('a', 'z'), ('A', 'Z'), ('0', '9'), ('.', '.'), ('-', '-')]

/-- Letter class `[a-z]` under `re.IGNORECASE`. -/
def letterCls : List (Char × Char) := [('a', 'z'), ('A', 'Z')]

/-- The non-captured part `(?:host|domain|dnsName):\s*` of the domain
pattern (case-insensitive). -/
def domainKeyRE : RE :=
  reSeq [RE.alt (RE.ilit "host".data) (RE.alt (RE.ilit "domain".data) (RE.ilit "dnsName".data)),
    RE.lit ":".data, RE.star (RE.cls wsCls)]

/-- The captured group `([a-z0-9.-]+\.[a-z]{2,})` of the domain pattern
(case-insensitive). -/
def domainHostRE : RE :=
  reSeq [rePlus (RE.cls hostCls), RE.lit ".".data, reAtLeast (RE.cls letterCls) 2]

/-- `re.findall` of the domain pattern, returning the captured hostname
group of each non-overlapping match.  The key part and the group are
matched in sequence; as the whitespace, key and hostname character sets
are disjoint, no backtracking crosses the group boundary. -/
def domainFindallAux : Nat → List Char → List (List Char)
  | 0, _ => []
  | f + 1, s =>
    match firstMatchLen domainKeyRE s with
    | some p =>
      match firstMatchLen domainHostRE (s.drop p) with
      | some h => ((s.drop p).take h) :: domainFindallAux f (s.drop (p + h))
      | none => match s with | [] => [] | _ :: t => domainFindallAux f t
    | none => match s with | [] => [] | _ :: t => domainFindallAux f t

/-- All captured hostname groups of the domain pattern in `s`. -/
def domainFindall (s : List Char) : List (List Char) :=
  domainFindallAux (s.length + 1) s

/-- Python set insertion, keeping first-insertion order. -/
def insertStr (l : List String) (s : String) : List String :=
  if s ∈ l then l else l ++ [s]

/-- Python's `str.strip()`: drop leading and trailing whitespace. -/
def pyStrip (l : List Char) : List Char :=
  ((l.dropWhile (fun c => clsMem wsCls c)).reverse.dropWhile (fun c => clsMem wsCls c)).reverse

/-- `discover_domain_names`: extract candidate hostnames from route and
ingress manifests, lowercase and strip each, and drop those ending in an
excluded platform suffix.  Unreadable files contribute nothing. -/
def discover_domain_names (tree : List MGFile) : List String :=
  route_patterns.foldl
    (fun acc pat =>
      (globFiles tree pat).foldl
        (fun acc f =>
          if f.isFile then
            if f.readable then
              (domainFindall f.content.data).foldl
                (fun acc m =>
                  let d := String.mk (pyStrip (m.map asciiLower))
                  if exclude_domains.any (fun e => pyEndsWith d e) then acc
                  else insertStr acc d)
                acc
            else acc
          else acc)
        acc)
    []

/-! ## `discover_proprietary_keywords` -/

/-- The fixed platform-standard exclusion list (`exclude_prefixes`). -/
def exclude_prefixes : List String :=
  ["openshift-", "kube-", "default", "istio-", "knative-",
   "prometheus", "grafana", "etcd", "apiserver", "controller"]

/-- The namespace-manifest glob of the namespace pass. -/
def namespace_pattern : List String :=
  ["**", "cluster-scoped-resources", "core", "namespaces", "*.yaml"]

/-- The `any(x.startswith(prefix) for prefix in exclude_prefixes)` test. -/
def prefixExcluded (v : String) : Bool :=
  exclude_prefixes.any (fun p => pyStartsWith v p)

/-- The label-value filter of the namespace pass: no `/`, length greater
than 3, not starting with a platform-standard prefix. -/
def labelKeep (v : String) : Bool :=
  (!(v.data.contains '/')) && 3 < v.length && !(prefixExcluded v)

/-- Keywords contributed by one parsed namespace manifest: the
`metadata.name` unless it starts with a platform prefix, then each label
value passing `labelKeep`. -/
def nsContrib (acc : List String) (d : NsDoc) : List String :=
  match d.nameVal with
  | none => acc
  | some nm =>
    let acc1 := if prefixExcluded nm then acc else insertStr acc nm
    d.labels.foldl (fun a kv => if labelKeep kv.2 then insertStr a kv.2 else a) acc1

/-- The namespace pass of `discover_proprietary_keywords`: manifests that
fail to open or to parse (`nsParse = none`) are skipped. -/
def nsPass (tree : List MGFile) (acc : List String) : List String :=
  (globFiles tree namespace_pattern).foldl
    (fun acc f =>
      if f.isFile then
        match f.nsParse with
        | none => acc
        | some d => nsContrib acc d
      else acc)
    acc

/-- The pod-manifest glob of the image pass. -/
def pod_pattern : List String := ["**", "namespaces", "**", "core", "pods", "*.yaml"]

/-- Registry character class `[a-z0-9.-]` (case-sensitive). -/
def regCls : List (Char × Char) := [('a', 'z'), ('0', '9'), ('.', '.'), ('-', '-')]

/-- Organization character class `[a-z0-9._-]` (case-sensitive). -/
def orgCls : List (Char × Char) := [('a', 'z'), ('0', '9'), ('.', '.'), ('_', '_'), ('-', '-')]

/-- `re.findall` of `image:\s*([a-z0-9.-]+)/([a-z0-9._-]+)/`, returning
the two captured groups of each non-overlapping match.  Both groups are
maximal runs of their classes (the classes exclude `/` and whitespace, so
the greedy match is deterministic). -/
def imageFindallAux : Nat → List Char → List (String × String)
  | 0, _ => []
  | f + 1, s =>
    if "image:".data.isPrefixOf s then
      let rest := (s.drop 6).dropWhile (fun c => clsMem wsCls c)
      let reg := rest.takeWhile (fun c => clsMem regCls c)
      match reg, rest.drop reg.length with
      | _ :: _, '/' :: rest4 =>
        let org := rest4.takeWhile (fun c => clsMem orgCls c)
        match org, rest4.drop org.length with
        | _ :: _, '/' :: rest6 => (String.mk reg, String.mk org) :: imageFindallAux f rest6
        | _, _ => match s with | [] => [] | _ :: t => imageFindallAux f t
      | _, _ => match s with | [] => [] | _ :: t => imageFindallAux f t
    else match s with | [] => [] | _ :: t => imageFindallAux f t

/-- All `(registry, org)` group pairs of the image pattern in `s`. -/
def imageFindall (s : List Char) : List (String × String) :=
  imageFindallAux (s.length + 1) s

/-- The well-known public registries the image pass drops. -/
def knownRegistries : List String := ["quay.io", "registry.redhat.io", "gcr.io", "docker.io"]

/-- The well-known organization segments the image pass drops. -/
def knownOrgs : List String := ["openshift-release-dev", "openshift", "redhat"]

/-- The image pass of `discover_proprietary_keywords`, capped at 100
successfully read pod manifests; unreadable ones do not count. -/
def imagePassAux : Nat → List MGFile → List String → List String
  | _, [], acc => acc
  | scanned, f :: fs, acc =>
    if 100 ≤ scanned then acc
    else if f.isFile then
      if f.readable then
        imagePassAux (scanned + 1) fs
          ((imageFindall f.content.data).foldl
            (fun a pr =>
              let a1 := if pr.1 ∈ knownRegistries then a else insertStr a pr.1
              if pr.2 ∈ knownOrgs then a1 else insertStr a1 pr.2)
            acc)
      else imagePassAux scanned fs acc
    else imagePassAux scanned fs acc

/-- `discover_proprietary_keywords`: the namespace pass followed by the
image pass. -/
def discover_proprietary_keywords (tree : List MGFile) : List String :=
  imagePassAux 0 (globFiles tree pod_pattern) (nsPass tree [])

/-! ## `generate_config` -/

/-- One entry of the generated `config.obfuscate` list, with the fields
each rule type carries in the source. -/
inductive ObfuscateRule where
  | regexR (regex : String) (target : String)
  | keywordsR (target : String) (replacement : List (String × String))
  | domainR (replacementType : String) (target : String) (domainNames : List String)
  | ipR (replacementType : String) (target : String)
  | macR (replacementType : String) (target : String)
deriving DecidableEq

/-- One entry of the generated `config.omit` list (all are of type
`Kubernetes`): the resource kind and optional apiVersion. -/
structure OmitRule where
  kind : String
  apiVersion : Option String
deriving DecidableEq

/-- The generated configuration document: the ordered `obfuscate` and
`omit` rule lists. -/
structure ConfigDoc where
  obfuscate : List ObfuscateRule
  omits : List OmitRule
deriving DecidableEq

/-- Catalog lookup `SECRET_PATTERNS[secret_type]`, `none` when the
`secret_type in SECRET_PATTERNS` membership test fails. -/
def lookupPattern (n : String) : Option String :=
  (SECRET_PATTERNS.find? (fun sig => sig.name = n)).map (fun sig => sig.pattern)

/-- The configuration-building part of `generate_config` (source lines
250-318), a pure function of the three discovery results.  The findings
tally is iterated in its key order (Python dict insertion order). -/
def generate_config_core (secret_patterns : List (String × Nat)) (domain_names : List String)
    (keywords : List String) : ConfigDoc :=
  { obfuscate :=
      (secret_patterns.filterMap
        (fun p => (lookupPattern p.1).map (fun pat => ObfuscateRule.regexR pat "FileContents")))
      ++ (if keywords = [] then []
          else [ObfuscateRule.keywordsR "All" (buildReplacementTable keywords)])
      ++ (if domain_names = [] then []
          else [ObfuscateRule.domainR "Consistent" "All" (sortedStrings domain_names)])
      ++ [ObfuscateRule.ipR "Consistent" "All", ObfuscateRule.macR "Consistent" "All"],
    omits :=
      [⟨"Secret", none⟩, ⟨"ConfigMap", none⟩,
       ⟨"CertificateSigningRequest", some "certificates.k8s.io/v1"⟩] }

/-- `generate_config` as a function of the tree: the three discovery
passes composed with the configuration builder (console printing and the
output-file write are external I/O glue). -/
def generate_config (tree : List MGFile) : ConfigDoc :=
  generate_config_core (scan_for_secret_patterns tree) (discover_domain_names tree)
    (discover_proprietary_keywords tree)

/-! ## Entropy scorer -/

/-- Shannon entropy of a string (`calculate_entropy`): character
frequencies over the string, summing `-p * log2 p` per distinct
character; the empty string yields `0`.  Python floats are modelled as
real numbers. -/
noncomputable def calculate_entropy (data : String) : ℝ :=
  if data.data = [] then 0
  else
    (data.data.dedup.map
      (fun c =>
        let p : ℝ := (data.data.count c : ℝ) / (data.data.length : ℝ)
        if 0 < p then -(p * Real.logb 2 p) else 0)).sum

/-- The fixed allow-list of known-benign high-entropy prefixes. -/
def benignPrefixes : List String :=
  ["sha256:", "registry-ci-", "quay.io/openshift-release-dev"]

/-- `is_high_entropy(value, threshold=4.5, min_length=20)`: false for
strings shorter than `min_length`, false for the known-benign prefixes,
otherwise true iff the entropy exceeds the threshold. -/
def is_high_entropy (value : String) (threshold : ℝ) (min_length : Nat) : Prop :=
  if value.length < min_length then False
  else if benignPrefixes.any (fun p => pyStartsWith value p) then False
  else threshold < calculate_entropy value

/-- A file on which `processScanFile` never changes the findings or the
budget counter (it was skipped, or failed to read). -/
def scanNeutral (g : MGFile) : Prop :=
  ∀ st : ScanState, (processScanFile st g).findings = st.findings ∧
    (processScanFile st g).scanned = st.scanned

/-- Truncation of a file's content to the 1 MiB read ceiling. -/
def truncFile (f : MGFile) : MGFile :=
  { f with content := String.mk (f.content.data.take (1024 * 1024)) }

/-- The number of readable files among a list of opened entries. -/
def readableCount (l : List MGFile) : Nat :=
  (l.filter (fun f => f.readable)).length

/-- Is an obfuscate rule a `Regex`-type rule? -/
def isRegexRule : ObfuscateRule → Bool
  | ObfuscateRule.regexR _ _ => true
  | _ => false

/-- Claim-side definition (following the specification's words, not the
source): the Regex rules the spec says the obfuscate list begins with,
taken in the fixed catalog's iteration order, filtered to the signature
names that carry a positive count in the tally. -/
def regexRulesCatalogOrder (tally : List (String × Nat)) : List ObfuscateRule :=
  SECRET_PATTERNS.filterMap
    (fun sig =>
      if tally.any (fun p => p.1 = sig.name && 0 < p.2) then
        some (ObfuscateRule.regexR sig.pattern "FileContents")
      else none)

/-! ## Concrete scenario inputs -/

/-- A pod log whose content is the literal `AKIA1234567890ABCDEF1`. -/
def demoLogFile : MGFile :=
  { path := ["namespaces", "ns1", "pods", "p1", "logs", "current.log"],
    isFile := true, size := 21, readable := true,
    content := "AKIA1234567890ABCDEF1", nsParse := none }

/-- A route manifest with one custom host (mixed case) and one
platform-suffixed host. -/
def demoRouteFile : MGFile :=
  { path := ["namespaces", "ns1", "route.openshift.io", "routes", "r1.yaml"],
    isFile := true, size := 50, readable := true,
    content := "host: Foo.MyCompany.com\ndomain: foo.openshift.io\n", nsParse := none }

/-- A route manifest whose hosts end in excluded suffixes without being
subdomains of excluded platform domains. -/
def demoRouteFile10 : MGFile :=
  { path := ["namespaces", "ns2", "route.openshift.io", "routes", "r2.yaml"],
    isFile := true, size := 40, readable := true,
    content := "host: notredhat.com\nhost: foo.websvc\n", nsParse := none }

/-- A candidate file above the 10 MiB size ceiling. -/
def demoBigFile : MGFile :=
  { path := ["namespaces", "ns1", "pods", "p2", "logs", "big.log"],
    isFile := true, size := 20 * 1024 * 1024, readable := true,
    content := "AKIA1234567890ABCDEF1", nsParse := none }

/-- A file that can neither be read nor parsed (permission or decode or
parse error). -/
def demoBrokenFile : MGFile :=
  { path := ["namespaces", "ns1", "pods", "p3", "logs", "broken.log"],
    isFile := true, size := 10, readable := false,
    content := "AKIA1234567890ABCDEF1", nsParse := none }

/-- A namespace manifest that reads fine but fails YAML parsing
(`yaml.safe_load` raises): readable, yet `nsParse = none`. -/
def demoBadYamlFile : MGFile :=
  { path := ["cluster-scoped-resources", "core", "namespaces", "bad.yaml"],
    isFile := true, size := 30, readable := true,
    content := ": : : not yaml", nsParse := none }


/-! ## Lemmas: decimal rendering and token injectivity -/

/-- Little-endian numeric value of a decimal digit-character list. -/
def valLE : List Char → Nat
  | [] => 0
  | c :: t => charVal c + 10 * valLE t

/-- Most-significant-first numeric value, with accumulator. -/
def valMSAux (a : Nat) (l : List Char) : Nat :=
  l.foldl (fun x c => x * 10 + charVal c) a

/-- Most-significant-first numeric value of a digit-character list. -/
def valMS (l : List Char) : Nat := valMSAux 0 l

theorem charVal_digitChar10 (d : Nat) (h : d < 10) : charVal (digitChar10 d) = d := by
  interval_cases d <;> rfl

theorem valLE_natToCharsRevF (f : Nat) : ∀ n, n ≤ f → valLE (natToCharsRevF f n) = n := by
  induction f with
  | zero => intro n hn; interval_cases n; rfl
  | succ f ih =>
    intro n hn
    show valLE (if n = 0 then [] else digitChar10 (n % 10) :: natToCharsRevF f (n / 10)) = n
    by_cases h : n = 0
    · simp [h, valLE]
    · have hdiv : n / 10 ≤ f := by omega
      simp only [h, if_false, valLE, ih (n / 10) hdiv,
        charVal_digitChar10 (n % 10) (Nat.mod_lt n (by omega))]
      omega

theorem valLE_natToCharsRev (n : Nat) : valLE (natToCharsRev n) = n :=
  valLE_natToCharsRevF (n + 1) n (by omega)

theorem valMSAux_reverse (l : List Char) : ∀ a, valMSAux a l.reverse = a * 10 ^ l.length + valLE l := by
  induction l with
  | nil => intro a; simp [valMSAux, valLE]
  | cons c t ih =>
    intro a
    simp only [List.reverse_cons, valMSAux, List.foldl_append, List.foldl_cons, List.foldl_nil]
    have := ih a
    simp only [valMSAux] at this
    rw [this]
    simp [valLE, List.length_cons, pow_succ]
    ring

theorem valMS_natRepr10 (n : Nat) : valMS (natRepr10 n) = n := by
  by_cases h : n = 0
  · simp [h, natRepr10, valMS, valMSAux, charVal]
  · have : natRepr10 n = (natToCharsRev n).reverse := by simp [natRepr10, h]
    rw [this, valMS, valMSAux_reverse, valLE_natToCharsRev]
    omega

theorem valMSAux_replicate_zero (k : Nat) : valMSAux 0 (List.replicate k '0') = 0 := by
  induction k with
  | zero => rfl
  | succ k ih => simpa [valMSAux, List.replicate_succ, charVal] using ih

theorem valMS_pad4 (n : Nat) : valMS (pad4 n) = n := by
  have h1 : valMS (pad4 n) = valMSAux (valMSAux 0 (List.replicate (4 - (natRepr10 n).length) '0'))
      (natRepr10 n) := by
    simp [pad4, valMS, valMSAux, List.foldl_append]
  rw [h1, valMSAux_replicate_zero]
  exact valMS_natRepr10 n

theorem pad4_injective {a b : Nat} (h : pad4 a = pad4 b) : a = b := by
  rw [← valMS_pad4 a, ← valMS_pad4 b, h]

theorem tokenFor_injective {i j : Nat} (h : tokenFor i = tokenFor j) : i = j := by
  have hd := congrArg String.data h
  simp only [tokenFor, String.data_append] at hd
  exact pad4_injective (List.append_cancel_left hd)

/-! ## Lemmas: lexicographic sorting -/

theorem charListLe_total (a : List Char) : ∀ b, charListLe a b = true ∨ charListLe b a = true := by
  induction a with
  | nil => intro b; left; rfl
  | cons c cs ih =>
    intro b
    cases b with
    | nil => right; rfl
    | cons d ds =>
      rcases lt_trichotomy c d with h | h | h
      · left; simp [charListLe, h]
      · subst h
        rcases ih ds with h2 | h2
        · left; simp [charListLe, lt_irrefl, h2]
        · right; simp [charListLe, lt_irrefl, h2]
      · right; simp [charListLe, h]

theorem charListLe_antisymm : ∀ a b : List Char,
    charListLe a b = true → charListLe b a = true → a = b := by
  intro a
  induction a with
  | nil =>
    intro b _ h2
    cases b with
    | nil => rfl
    | cons d ds => simp [charListLe] at h2
  | cons c cs ih =>
    intro b h1 h2
    cases b with
    | nil => simp [charListLe] at h1
    | cons d ds =>
      rcases lt_trichotomy c d with h | h | h
      · simp [charListLe, h, not_lt_of_lt h] at h2
      · subst h
        simp only [charListLe, lt_irrefl, if_false] at h1 h2
        rw [ih ds h1 h2]
      · simp [charListLe, h, not_lt_of_lt h] at h1

theorem charListLe_trans : ∀ a b c : List Char,
    charListLe a b = true → charListLe b c = true → charListLe a c = true := by
  intro a
  induction a with
  | nil => intro b c _ _; rfl
  | cons x xs ih =>
    intro b c h1 h2
    cases b with
    | nil => simp [charListLe] at h1
    | cons y ys =>
      cases c with
      | nil => simp [charListLe] at h2
      | cons z zs =>
        simp only [charListLe] at h1 h2 ⊢
        rcases lt_trichotomy x y with hxy | hxy | hxy
        · rcases lt_trichotomy y z with hyz | hyz | hyz
          · simp [lt_trans hxy hyz]
          · subst hyz; simp [hxy]
          · simp [hyz, not_lt_of_lt hyz] at h2
        · subst hxy
          rcases lt_trichotomy x z with hxz | hxz | hxz
          · simp [hxz]
          · subst hxz
            simp only [lt_irrefl, if_false] at h1 h2 ⊢
            exact ih _ _ h1 h2
          · simp [hxz, not_lt_of_lt hxz] at h2
        · simp [hxy, not_lt_of_lt hxy] at h1

theorem strLe_total (a b : String) : strLe a b = true ∨ strLe b a = true :=
  charListLe_total a.data b.data

theorem strLe_antisymm {a b : String} (h1 : strLe a b = true) (h2 : strLe b a = true) : a = b := by
  cases a; cases b
  exact congrArg String.mk (charListLe_antisymm _ _ h1 h2)

theorem strLe_trans {a b c : String} (h1 : strLe a b = true) (h2 : strLe b c = true) :
    strLe a c = true :=
  charListLe_trans _ _ _ h1 h2

theorem insertSorted_perm (x : String) (l : List String) :
    List.Perm (insertSorted x l) (x :: l) := by
  induction l with
  | nil => rfl
  | cons y ys ih =>
    by_cases h : strLe x y = true
    · simp [insertSorted, h]
    · simp only [insertSorted, h, if_false]
      exact (ih.cons y).trans (List.Perm.swap x y ys)

theorem sortedStrings_perm (l : List String) : List.Perm (sortedStrings l) l := by
  induction l with
  | nil => rfl
  | cons x xs ih =>
    show List.Perm (insertSorted x (sortedStrings xs)) (x :: xs)
    exact (insertSorted_perm x (sortedStrings xs)).trans (ih.cons x)

theorem insertSorted_sorted (x : String) (l : List String)
    (h : l.Pairwise (fun a b => strLe a b = true)) :
    (insertSorted x l).Pairwise (fun a b => strLe a b = true) := by
  induction l with
  | nil => simp [insertSorted]
  | cons y ys ih =>
    rcases List.pairwise_cons.mp h with ⟨hy, hys⟩
    by_cases hxy : strLe x y = true
    · simp only [insertSorted, hxy, if_true]
      refine List.pairwise_cons.mpr ⟨?_, h⟩
      intro z hz
      rcases List.mem_cons.mp hz with rfl | hz
      · exact hxy
      · exact strLe_trans hxy (hy z hz)
    · simp only [insertSorted, hxy, if_false]
      refine List.pairwise_cons.mpr ⟨?_, ih hys⟩
      intro z hz
      have hz2 : z ∈ x :: ys := (insertSorted_perm x ys).mem_iff.mp hz
      rcases List.mem_cons.mp hz2 with rfl | hz2
      · rcases strLe_total z y with h2 | h2
        · exact absurd h2 hxy
        · exact h2
      · exact hy z hz2

theorem sortedStrings_sorted (l : List String) :
    (sortedStrings l).Pairwise (fun a b => strLe a b = true) := by
  induction l with
  | nil => simp [sortedStrings]
  | cons x xs ih => exact insertSorted_sorted x (sortedStrings xs) ih

theorem sortedStrings_eq_of_perm {l1 l2 : List String} (h : List.Perm l1 l2) :
    sortedStrings l1 = sortedStrings l2 := by
  haveI : IsAntisymm String (fun a b => strLe a b = true) := ⟨fun _ _ => strLe_antisymm⟩
  exact List.eq_of_perm_of_sorted
    ((sortedStrings_perm l1).trans (h.trans (sortedStrings_perm l2).symm))
    (sortedStrings_sorted l1) (sortedStrings_sorted l2)

/-! ## Lemmas: the replacement table -/

theorem buildReplacementTable_map_fst (ks : List String) :
    (buildReplacementTable ks).map Prod.fst = sortedStrings ks := by
  unfold buildReplacementTable
  rw [List.map_map]
  have h : (Prod.fst ∘ fun p : Nat × String => (p.2, tokenFor (p.1 + 1))) = Prod.snd := rfl
  rw [h, List.enum_map_snd]

theorem buildReplacementTable_map_snd (ks : List String) :
    (buildReplacementTable ks).map Prod.snd =
      (List.range (sortedStrings ks).length).map (fun i => tokenFor (i + 1)) := by
  unfold buildReplacementTable
  rw [List.map_map]
  have h : (Prod.snd ∘ fun p : Nat × String => (p.2, tokenFor (p.1 + 1))) =
      (fun i => tokenFor (i + 1)) ∘ Prod.fst := rfl
  rw [h, ← List.map_map, List.enum_map_fst]

theorem buildReplacementTable_snd_nodup (ks : List String) :
    ((buildReplacementTable ks).map Prod.snd).Nodup := by
  rw [buildReplacementTable_map_snd]
  refine List.Nodup.map ?_ (List.nodup_range _)
  intro i j hij
  have := tokenFor_injective hij
  omega

theorem buildReplacementTable_inj (ks : List String) :
    ∀ p ∈ buildReplacementTable ks, ∀ q ∈ buildReplacementTable ks, p.2 = q.2 → p = q :=
  List.inj_on_of_nodup_map (buildReplacementTable_snd_nodup ks)

theorem buildReplacementTable_eq_of_perm {ks1 ks2 : List String} (h : List.Perm ks1 ks2) :
    buildReplacementTable ks1 = buildReplacementTable ks2 := by
  unfold buildReplacementTable
  rw [sortedStrings_eq_of_perm h]

/-! ## Generic fold invariants and set-insertion membership -/

theorem foldl_invariant {α β : Type} (P : β → Prop) (f : β → α → β)
    (hstep : ∀ b a, P b → P (f b a)) : ∀ (l : List α) (b : β), P b → P (l.foldl f b) := by
  intro l
  induction l with
  | nil => intro b hb; exact hb
  | cons a as ih => intro b hb; exact ih (f b a) (hstep b a hb)

theorem mem_insertStr {x s : String} {l : List String} :
    x ∈ insertStr l s ↔ x ∈ l ∨ x = s := by
  by_cases h : s ∈ l
  · simp only [insertStr, h, if_true]
    exact ⟨Or.inl, fun hx => hx.elim id (fun hxs => hxs ▸ h)⟩
  · simp [insertStr, h]

/-! ## Lemmas: domain discovery -/

theorem discover_domain_names_excluded (tree : List MGFile) :
    ∀ d ∈ discover_domain_names tree, ∀ e ∈ exclude_domains, pyEndsWith d e = false := by
  unfold discover_domain_names
  apply foldl_invariant (fun acc => ∀ d ∈ acc, ∀ e ∈ exclude_domains, pyEndsWith d e = false)
  · intro acc pat hacc
    apply foldl_invariant (fun acc => ∀ d ∈ acc, ∀ e ∈ exclude_domains, pyEndsWith d e = false)
    · intro acc f hacc2
      by_cases hf : f.isFile
      · simp only [hf, if_true]
        by_cases hr : f.readable
        · simp only [hr, if_true]
          apply foldl_invariant
            (fun acc => ∀ d ∈ acc, ∀ e ∈ exclude_domains, pyEndsWith d e = false)
          · intro acc m hacc3
            by_cases hx : exclude_domains.any
                (fun e => pyEndsWith (String.mk (pyStrip (m.map asciiLower))) e) = true
            · simpa [hx] using hacc3
            · simp only [hx]
              simp only [List.any_eq_true, not_exists, not_and] at hx
              intro d hd e he
              rcases mem_insertStr.mp hd with hd | rfl
              · exact hacc3 d hd e he
              · simp only [Bool.not_eq_true] at hx
                exact hx e he
          · exact hacc2
        · simpa [hr] using hacc2
      · simpa [hf] using hacc2
    · exact hacc
  · intro d hd; simp at hd

/-! ## Lemmas: the secret scan -/

theorem scanFilesList_of_budget {st : ScanState} (h : 500 ≤ st.scanned) :
    ∀ l, scanFilesList st l = st := by
  intro l
  cases l with
  | nil => rfl
  | cons f fs => simp [scanFilesList, h]

theorem processScanFile_proj {st st' : ScanState} (f : MGFile)
    (hf : st.findings = st'.findings) (hs : st.scanned = st'.scanned) :
    (processScanFile st f).findings = (processScanFile st' f).findings ∧
      (processScanFile st f).scanned = (processScanFile st' f).scanned := by
  by_cases h1 : f.isFile && f.size < 10 * 1024 * 1024
  · by_cases h2 : f.readable
    · simp [processScanFile, h1, h2, hf, hs]
    · simp [processScanFile, h1, h2, hf, hs]
  · simp [processScanFile, h1, hf, hs]

theorem scanFilesList_proj :
    ∀ (l : List MGFile) (st st' : ScanState), st.findings = st'.findings →
      st.scanned = st'.scanned →
      (scanFilesList st l).findings = (scanFilesList st' l).findings ∧
        (scanFilesList st l).scanned = (scanFilesList st' l).scanned := by
  intro l
  induction l with
  | nil => intro st st' hf hs; exact ⟨hf, hs⟩
  | cons f fs ih =>
    intro st st' hf hs
    by_cases h : 500 ≤ st.scanned
    · simp [scanFilesList, h, hs ▸ h, hf, hs]
    · have h' : ¬ 500 ≤ st'.scanned := hs ▸ h
      simp only [scanFilesList, h, h', if_false]
      rcases processScanFile_proj f hf hs with ⟨hf2, hs2⟩
      exact ih _ _ hf2 hs2


theorem scanNeutral_of_unreadable {g : MGFile} (h : g.readable = false) : scanNeutral g := by
  intro st
  by_cases h1 : g.isFile && g.size < 10 * 1024 * 1024
  · simp [processScanFile, h1, h]
  · simp [processScanFile, h1]

theorem scanNeutral_of_oversized {g : MGFile} (h : ¬ g.size < 10 * 1024 * 1024) :
    scanNeutral g := by
  intro st
  have h1 : (g.isFile && decide (g.size < 10 * 1024 * 1024)) = false := by
    simp [h]
  simp [processScanFile, h1]

theorem scanFilesList_skip {g : MGFile} (hg : scanNeutral g) :
    ∀ (l1 l2 : List MGFile) (st : ScanState),
      (scanFilesList st (l1 ++ g :: l2)).findings = (scanFilesList st (l1 ++ l2)).findings ∧
        (scanFilesList st (l1 ++ g :: l2)).scanned = (scanFilesList st (l1 ++ l2)).scanned := by
  intro l1
  induction l1 with
  | nil =>
    intro l2 st
    by_cases h : 500 ≤ st.scanned
    · simp only [List.nil_append, scanFilesList, h, if_true]
      rw [scanFilesList_of_budget h l2]
      exact ⟨rfl, rfl⟩
    · simp only [List.nil_append, scanFilesList, h, if_false]
      rcases hg st with ⟨hf, hs⟩
      exact scanFilesList_proj l2 _ _ hf hs
  | cons a as ih =>
    intro l2 st
    by_cases h : 500 ≤ st.scanned
    · simp [scanFilesList, h]
    · simp only [List.cons_append, scanFilesList, h, if_false]
      exact ih l2 (processScanFile st a)

theorem globFiles_append (t1 t2 : List MGFile) (pat : List String) :
    globFiles (t1 ++ t2) pat = globFiles t1 pat ++ globFiles t2 pat :=
  List.filter_append _ _

theorem globFiles_cons (f : MGFile) (t : List MGFile) (pat : List String) :
    globFiles (f :: t) pat =
      if pathMatches pat f.path then f :: globFiles t pat else globFiles t pat := by
  simp [globFiles, List.filter_cons]

theorem scanPats_skip {g : MGFile} (hg : scanNeutral g) (t1 t2 : List MGFile) :
    ∀ (pats : List (List String)) (st st' : ScanState),
      st.findings = st'.findings → st.scanned = st'.scanned →
      ((pats.foldl (fun st pat => scanFilesList st (globFiles (t1 ++ g :: t2) pat)) st).findings =
        (pats.foldl (fun st pat => scanFilesList st (globFiles (t1 ++ t2) pat)) st').findings) ∧
      ((pats.foldl (fun st pat => scanFilesList st (globFiles (t1 ++ g :: t2) pat)) st).scanned =
        (pats.foldl (fun st pat => scanFilesList st (globFiles (t1 ++ t2) pat)) st').scanned) := by
  intro pats
  induction pats with
  | nil => intro st st' hf hs; exact ⟨hf, hs⟩
  | cons pat rest ih =>
    intro st st' hf hs
    simp only [List.foldl_cons]
    apply ih
    all_goals {
      have hdec1 : globFiles (t1 ++ g :: t2) pat =
          globFiles t1 pat ++ globFiles (g :: t2) pat := globFiles_append t1 (g :: t2) pat
      have hdec2 : globFiles (t1 ++ t2) pat = globFiles t1 pat ++ globFiles t2 pat :=
        globFiles_append t1 t2 pat
      by_cases hm : pathMatches pat g.path
      · have : globFiles (g :: t2) pat = g :: globFiles t2 pat := by
          simp [globFiles_cons, hm]
        rw [hdec1, hdec2, this]
        have hskip := scanFilesList_skip hg (globFiles t1 pat) (globFiles t2 pat) st
        have hproj := scanFilesList_proj (globFiles t1 pat ++ globFiles t2 pat) st st' hf hs
        first
          | exact hskip.1.trans hproj.1
          | exact hskip.2.trans hproj.2
      · have : globFiles (g :: t2) pat = globFiles t2 pat := by
          simp [globFiles_cons, hm]
        rw [hdec1, hdec2, this]
        have hproj := scanFilesList_proj (globFiles t1 pat ++ globFiles t2 pat) st st' hf hs
        first
          | exact hproj.1
          | exact hproj.2
    }

theorem scan_skip_neutral {g : MGFile} (hg : scanNeutral g) (t1 t2 : List MGFile) :
    scan_for_secret_patterns (t1 ++ g :: t2) = scan_for_secret_patterns (t1 ++ t2) ∧
      (scanExtended (t1 ++ g :: t2)).scanned = (scanExtended (t1 ++ t2)).scanned :=
  scanPats_skip hg t1 t2 sample_patterns ⟨[], 0, []⟩ ⟨[], 0, []⟩ rfl rfl



theorem processScanFile_trunc_proj {st st' : ScanState} (f : MGFile)
    (hf : st.findings = st'.findings) (hs : st.scanned = st'.scanned) :
    (processScanFile st (truncFile f)).findings = (processScanFile st' f).findings ∧
      (processScanFile st (truncFile f)).scanned = (processScanFile st' f).scanned := by
  have hc : (truncFile f).content.data.take (1024 * 1024) = f.content.data.take (1024 * 1024) := by
    show (f.content.data.take (1024 * 1024)).take (1024 * 1024) = f.content.data.take (1024 * 1024)
    rw [List.take_take, Nat.min_self]
  unfold processScanFile
  have hIs : (truncFile f).isFile = f.isFile := rfl
  have hSz : (truncFile f).size = f.size := rfl
  have hRd : (truncFile f).readable = f.readable := rfl
  rw [hIs, hSz, hRd, hc, hf, hs]
  split_ifs <;> first
    | exact ⟨rfl, rfl⟩
    | exact ⟨hf, hs⟩

theorem scanFilesList_trunc :
    ∀ (l : List MGFile) (st st' : ScanState), st.findings = st'.findings →
      st.scanned = st'.scanned →
      (scanFilesList st (l.map truncFile)).findings = (scanFilesList st' l).findings ∧
        (scanFilesList st (l.map truncFile)).scanned = (scanFilesList st' l).scanned := by
  intro l
  induction l with
  | nil => intro st st' hf hs; exact ⟨hf, hs⟩
  | cons f fs ih =>
    intro st st' hf hs
    by_cases h : 500 ≤ st.scanned
    · simp [scanFilesList, h, hs ▸ h, hf, hs]
    · have h' : ¬ 500 ≤ st'.scanned := hs ▸ h
      simp only [List.map_cons, scanFilesList, h, h', if_false]
      rcases processScanFile_trunc_proj f hf hs with ⟨hf2, hs2⟩
      exact ih _ _ hf2 hs2

theorem globFiles_map_trunc (t : List MGFile) (pat : List String) :
    globFiles (t.map truncFile) pat = (globFiles t pat).map truncFile := by
  unfold globFiles
  rw [List.filter_map]
  rfl

theorem scanPats_trunc (t : List MGFile) :
    ∀ (pats : List (List String)) (st st' : ScanState),
      st.findings = st'.findings → st.scanned = st'.scanned →
      ((pats.foldl (fun st pat => scanFilesList st (globFiles (t.map truncFile) pat)) st).findings =
        (pats.foldl (fun st pat => scanFilesList st (globFiles t pat)) st').findings) ∧
      ((pats.foldl (fun st pat => scanFilesList st (globFiles (t.map truncFile) pat)) st).scanned =
        (pats.foldl (fun st pat => scanFilesList st (globFiles t pat)) st').scanned) := by
  intro pats
  induction pats with
  | nil => intro st st' hf hs; exact ⟨hf, hs⟩
  | cons pat rest ih =>
    intro st st' hf hs
    simp only [List.foldl_cons]
    apply ih
    all_goals {
      rw [globFiles_map_trunc]
      have htr := scanFilesList_trunc (globFiles t pat) st st' hf hs
      first
        | exact htr.1
        | exact htr.2
    }

theorem scan_trunc (t : List MGFile) :
    scan_for_secret_patterns (t.map truncFile) = scan_for_secret_patterns t ∧
      (scanExtended (t.map truncFile)).scanned = (scanExtended t).scanned :=
  scanPats_trunc t sample_patterns ⟨[], 0, []⟩ ⟨[], 0, []⟩ rfl rfl

/-! Budget and opened-file invariants of the scan. -/

theorem scanFilesList_opened_inv :
    ∀ (l : List MGFile) (st : ScanState),
      (∀ f ∈ st.opened, f.isFile = true ∧ f.size < 10 * 1024 * 1024) →
      ∀ f ∈ (scanFilesList st l).opened, f.isFile = true ∧ f.size < 10 * 1024 * 1024 := by
  intro l
  induction l with
  | nil => intro st h; exact h
  | cons g gs ih =>
    intro st h
    by_cases hb : 500 ≤ st.scanned
    · simpa [scanFilesList, hb] using h
    · simp only [scanFilesList, hb, if_false]
      apply ih
      by_cases h1 : g.isFile && g.size < 10 * 1024 * 1024
      · have hg : g.isFile = true ∧ g.size < 10 * 1024 * 1024 := by
          simpa using h1
        by_cases h2 : g.readable
        · simp only [processScanFile, h1, h2, if_true]
          intro f hf
          rcases List.mem_append.mp hf with hf | hf
          · exact h f hf
          · rcases List.mem_singleton.mp hf with rfl
            exact hg
        · simp only [processScanFile, h1, h2, if_true, if_false]
          intro f hf
          rcases List.mem_append.mp hf with hf | hf
          · exact h f hf
          · rcases List.mem_singleton.mp hf with rfl
            exact hg
      · simpa [processScanFile, h1] using h



theorem scanFilesList_budget :
    ∀ (l : List MGFile) (st : ScanState),
      st.scanned ≤ 500 → st.scanned = readableCount st.opened →
      (scanFilesList st l).scanned ≤ 500 ∧
        (scanFilesList st l).scanned = readableCount (scanFilesList st l).opened := by
  intro l
  induction l with
  | nil => intro st h1 h2; exact ⟨h1, h2⟩
  | cons g gs ih =>
    intro st h1 h2
    by_cases hb : 500 ≤ st.scanned
    · simp only [scanFilesList, hb, if_true]
      exact ⟨h1, h2⟩
    · simp only [scanFilesList, hb, if_false]
      apply ih
      · by_cases hc : g.isFile && g.size < 10 * 1024 * 1024
        · by_cases hr : g.readable
          · simp [processScanFile, hc, hr]
            omega
          · simp [processScanFile, hc, hr]
            omega
        · simp [processScanFile, hc]
          omega
      · by_cases hc : g.isFile && g.size < 10 * 1024 * 1024
        · by_cases hr : g.readable
          · simp [processScanFile, hc, hr, readableCount, List.filter_append] at h2 ⊢
            omega
          · simp [processScanFile, hc, hr, readableCount, List.filter_append] at h2 ⊢
            omega
        · simpa [processScanFile, hc] using h2

theorem scanExtended_opened (tree : List MGFile) :
    ∀ f ∈ (scanExtended tree).opened, f.isFile = true ∧ f.size < 10 * 1024 * 1024 := by
  unfold scanExtended
  apply foldl_invariant
    (fun st : ScanState => ∀ f ∈ st.opened, f.isFile = true ∧ f.size < 10 * 1024 * 1024)
  · intro st pat h
    exact scanFilesList_opened_inv (globFiles tree pat) st h
  · intro f hf; simp at hf

theorem scanExtended_budget (tree : List MGFile) :
    (scanExtended tree).scanned ≤ 500 ∧
      (scanExtended tree).scanned = readableCount (scanExtended tree).opened := by
  unfold scanExtended
  apply foldl_invariant
    (fun st : ScanState => st.scanned ≤ 500 ∧ st.scanned = readableCount st.opened)
  · intro st pat h
    exact scanFilesList_budget (globFiles tree pat) st h.1 h.2
  · exact ⟨by decide, rfl⟩

/-! ## Lemmas: keyword discovery -/

theorem foldl_skip_mid {α β : Type} (f : β → α → β) (g : α) (hg : ∀ b, f b g = b)
    (l1 l2 : List α) (b : β) : (l1 ++ g :: l2).foldl f b = (l1 ++ l2).foldl f b := by
  rw [List.foldl_append, List.foldl_append, List.foldl_cons, hg]

theorem domainStep_skip (g : MGFile) (hg : g.readable = false) :
    ∀ acc : List String,
      (if g.isFile then
        if g.readable then
          (domainFindall g.content.data).foldl
            (fun acc m =>
              let d := String.mk (pyStrip (m.map asciiLower))
              if exclude_domains.any (fun e => pyEndsWith d e) then acc
              else insertStr acc d)
            acc
        else acc
      else acc) = acc := by
  intro acc
  by_cases hf : g.isFile
  · simp [hf, hg]
  · simp [hf]

theorem discover_domain_names_skip {g : MGFile} (hg : g.readable = false) (t1 t2 : List MGFile) :
    discover_domain_names (t1 ++ g :: t2) = discover_domain_names (t1 ++ t2) := by
  unfold discover_domain_names
  apply List.foldl_ext
  intro acc pat _
  rw [globFiles_append, globFiles_append, globFiles_cons]
  by_cases hm : pathMatches pat g.path
  · simp only [hm, if_true]
    exact foldl_skip_mid _ g (fun b => domainStep_skip g hg b) _ _ acc
  · simp [hm]

theorem nsPass_skip {g : MGFile} (hg : g.nsParse = none) (t1 t2 : List MGFile)
    (acc : List String) : nsPass (t1 ++ g :: t2) acc = nsPass (t1 ++ t2) acc := by
  unfold nsPass
  rw [globFiles_append, globFiles_append, globFiles_cons]
  by_cases hm : pathMatches namespace_pattern g.path
  · simp only [hm, if_true]
    apply foldl_skip_mid
    intro b
    by_cases hf : g.isFile
    · simp [hf, hg]
    · simp [hf]
  · simp [hm]

theorem imagePassAux_of_budget {sc : Nat} (h : 100 ≤ sc) :
    ∀ l acc, imagePassAux sc l acc = acc := by
  intro l acc
  cases l with
  | nil => rfl
  | cons f fs => simp [imagePassAux, h]

theorem imagePassAux_skip {g : MGFile} (hg : g.readable = false) :
    ∀ (l1 l2 : List MGFile) (sc : Nat) (acc : List String),
      imagePassAux sc (l1 ++ g :: l2) acc = imagePassAux sc (l1 ++ l2) acc := by
  intro l1
  induction l1 with
  | nil =>
    intro l2 sc acc
    by_cases hb : 100 ≤ sc
    · simp only [List.nil_append, imagePassAux, hb, if_true]
      rw [imagePassAux_of_budget hb]
    · by_cases hf : g.isFile
      · simp [imagePassAux, hb, hf, hg]
      · simp [imagePassAux, hb, hf]
  | cons a as ih =>
    intro l2 sc acc
    by_cases hb : 100 ≤ sc
    · simp [imagePassAux, hb]
    · by_cases hf : a.isFile
      · by_cases hr : a.readable
        · simp only [List.cons_append, imagePassAux, hb, hf, hr, if_true, if_false]
          apply ih
        · simp only [List.cons_append, imagePassAux, hb, hf, hr, if_true, if_false]
          apply ih
      · simp only [List.cons_append, imagePassAux, hb, hf, if_true, if_false]
        apply ih

theorem discover_proprietary_keywords_skip {g : MGFile} (hg1 : g.readable = false)
    (hg2 : g.nsParse = none) (t1 t2 : List MGFile) :
    discover_proprietary_keywords (t1 ++ g :: t2) = discover_proprietary_keywords (t1 ++ t2) := by
  unfold discover_proprietary_keywords
  rw [nsPass_skip hg2 t1 t2]
  rw [globFiles_append, globFiles_append, globFiles_cons]
  by_cases hm : pathMatches pod_pattern g.path
  · simp only [hm, if_true]
    exact imagePassAux_skip hg1 _ _ 0 _
  · simp [hm]

theorem imagePass_tree_skip {g : MGFile} (hg : g.readable = false) (t1 t2 : List MGFile)
    (sc : Nat) (acc : List String) :
    imagePassAux sc (globFiles (t1 ++ g :: t2) pod_pattern) acc =
      imagePassAux sc (globFiles (t1 ++ t2) pod_pattern) acc := by
  rw [globFiles_append, globFiles_append, globFiles_cons]
  by_cases hm : pathMatches pod_pattern g.path
  · simp only [hm, if_true]
    exact imagePassAux_skip hg _ _ sc acc
  · simp [hm]

theorem keywords_skip_unparsable {g : MGFile} (hg : g.nsParse = none)
    (hm : pathMatches pod_pattern g.path = false) (t1 t2 : List MGFile) :
    discover_proprietary_keywords (t1 ++ g :: t2) = discover_proprietary_keywords (t1 ++ t2) := by
  unfold discover_proprietary_keywords
  rw [nsPass_skip hg t1 t2, globFiles_append, globFiles_append, globFiles_cons]
  simp [hm]

theorem mem_labelFoldl (labels : List (String × String)) :
    ∀ (acc : List String) (x : String),
      x ∈ labels.foldl (fun a kv => if labelKeep kv.2 then insertStr a kv.2 else a) acc ↔
        x ∈ acc ∨ ∃ kv, kv ∈ labels ∧ labelKeep kv.2 = true ∧ x = kv.2 := by
  induction labels with
  | nil => intro acc x; simp
  | cons kv rest ih =>
    intro acc x
    simp only [List.foldl_cons]
    rw [ih]
    by_cases h : labelKeep kv.2 = true
    · simp only [h, if_true, mem_insertStr, List.mem_cons]
      constructor
      · rintro (⟨hx | hx⟩ | ⟨kv2, hkv2, hk2, hx2⟩)
        · exact Or.inl hx
        · exact Or.inr ⟨kv, Or.inl rfl, h, hx⟩
        · exact Or.inr ⟨kv2, Or.inr hkv2, hk2, hx2⟩
      · rintro (hx | ⟨kv2, hkv2 | hkv2, hk2, hx2⟩)
        · exact Or.inl (Or.inl hx)
        · exact Or.inl (Or.inr (hkv2 ▸ hx2))
        · exact Or.inr ⟨kv2, hkv2, hk2, hx2⟩
    · simp only [h, if_false, List.mem_cons]
      constructor
      · rintro (hx | ⟨kv2, hkv2, hk2, hx2⟩)
        · exact Or.inl hx
        · exact Or.inr ⟨kv2, Or.inr hkv2, hk2, hx2⟩
      · rintro (hx | ⟨kv2, hkv2 | hkv2, hk2, hx2⟩)
        · exact Or.inl hx
        · exact absurd (hkv2 ▸ hk2) h
        · exact Or.inr ⟨kv2, hkv2, hk2, hx2⟩

theorem labelKeep_not_prefixExcluded {v : String} (h : labelKeep v = true) :
    prefixExcluded v = false := by
  simp only [labelKeep, Bool.and_eq_true, Bool.not_eq_true'] at h
  exact h.2

theorem nsContrib_mem_name (nm : String) (labels : List (String × String)) :
    nm ∈ nsContrib [] ⟨some nm, labels⟩ ↔ prefixExcluded nm = false := by
  show nm ∈ labels.foldl _ (if prefixExcluded nm then [] else insertStr [] nm) ↔ _
  rw [mem_labelFoldl]
  constructor
  · rintro (hx | ⟨kv, _, hk, hx2⟩)
    · by_cases h : prefixExcluded nm = true
      · rw [h] at hx
        simp at hx
      · simpa using h
    · exact hx2 ▸ labelKeep_not_prefixExcluded hk
  · intro h
    left
    simp [h, insertStr]

theorem nsContrib_mem_label (nm v : String) (labels : List (String × String))
    (hv : ∃ k, (k, v) ∈ labels) :
    v ∈ nsContrib [] ⟨some nm, labels⟩ ↔
      labelKeep v = true ∨ (v = nm ∧ prefixExcluded nm = false) := by
  show v ∈ labels.foldl _ (if prefixExcluded nm then [] else insertStr [] nm) ↔ _
  rw [mem_labelFoldl]
  constructor
  · rintro (hx | ⟨kv, _, hk, hx2⟩)
    · by_cases h : prefixExcluded nm = true
      · rw [h] at hx
        simp at hx
      · rw [if_neg h] at hx
        simp only [insertStr, List.not_mem_nil, if_false, List.nil_append,
          List.mem_singleton] at hx
        exact Or.inr ⟨hx, by simpa using h⟩
    · exact Or.inl (hx2 ▸ hk)
  · rintro (h | ⟨rfl, h⟩)
    · rcases hv with ⟨k, hk⟩
      exact Or.inr ⟨(k, v), hk, h, rfl⟩
    · left
      simp [h, insertStr]

/-! ## Lemmas: configuration synthesis -/





theorem obfuscate_decomp (t : List (String × Nat)) (d k : List String) :
    (generate_config_core t d k).obfuscate.takeWhile isRegexRule =
      t.filterMap
        (fun p => (lookupPattern p.1).map (fun pat => ObfuscateRule.regexR pat "FileContents")) ∧
    ∀ r ∈ (generate_config_core t d k).obfuscate.dropWhile isRegexRule, isRegexRule r = false := by
  have hR : ∀ a ∈ t.filterMap
      (fun p => (lookupPattern p.1).map (fun pat => ObfuscateRule.regexR pat "FileContents")),
      isRegexRule a = true := by
    intro a ha
    rcases List.mem_filterMap.mp ha with ⟨p, _, hp⟩
    rcases Option.map_eq_some'.mp hp with ⟨pat, _, rfl⟩
    rfl
  have hrest : ∀ r ∈ ((if k = [] then []
        else [ObfuscateRule.keywordsR "All" (buildReplacementTable k)]) ++
      ((if d = [] then []
        else [ObfuscateRule.domainR "Consistent" "All" (sortedStrings d)]) ++
      [ObfuscateRule.ipR "Consistent" "All", ObfuscateRule.macR "Consistent" "All"])),
      isRegexRule r = false := by
    intro r hr
    rcases List.mem_append.mp hr with hr | hr
    · by_cases hk : k = []
      · rw [hk] at hr; simp at hr
      · rw [if_neg hk] at hr
        rcases List.mem_singleton.mp hr with rfl
        rfl
    · rcases List.mem_append.mp hr with hr | hr
      · by_cases hd : d = []
        · rw [hd] at hr; simp at hr
        · rw [if_neg hd] at hr
          rcases List.mem_singleton.mp hr with rfl
          rfl
      · rcases List.mem_cons.mp hr with rfl | hr
        · rfl
        · rcases List.mem_singleton.mp hr with rfl
          rfl
  have hshape : (generate_config_core t d k).obfuscate =
      t.filterMap
        (fun p => (lookupPattern p.1).map (fun pat => ObfuscateRule.regexR pat "FileContents")) ++
      ((if k = [] then []
        else [ObfuscateRule.keywordsR "All" (buildReplacementTable k)]) ++
      ((if d = [] then []
        else [ObfuscateRule.domainR "Consistent" "All" (sortedStrings d)]) ++
      [ObfuscateRule.ipR "Consistent" "All", ObfuscateRule.macR "Consistent" "All"])) := by
    simp [generate_config_core, List.append_assoc]
  constructor
  · rw [hshape]
    rw [List.takeWhile_append_of_pos hR]
    have : List.takeWhile isRegexRule ((if k = [] then []
        else [ObfuscateRule.keywordsR "All" (buildReplacementTable k)]) ++
      ((if d = [] then []
        else [ObfuscateRule.domainR "Consistent" "All" (sortedStrings d)]) ++
      [ObfuscateRule.ipR "Consistent" "All", ObfuscateRule.macR "Consistent" "All"])) = [] := by
      by_cases hk : k = [] <;> by_cases hd : d = [] <;>
        simp [hk, hd, List.takeWhile_cons, isRegexRule]
    rw [this, List.append_nil]
  · rw [hshape]
    rw [List.dropWhile_append_of_pos hR]
    intro r hr
    exact hrest r ((List.dropWhile_sublist _).mem hr)



/-! ## Claims -/

/-- C1, as stated, is false: the obfuscate list's Regex prefix follows the
tally's key-insertion order (the order the scan first detected each
signature), not the fixed catalog's iteration order.  At the tally
`[github_token ↦ 1, aws_access_key ↦ 1]` (detection order github first)
the generated list starts github-then-aws, while the catalog order is
aws-then-github. -/
theorem C1_counterexample :
    regexRulesCatalogOrder [("github_token", 1), ("aws_access_key", 1)] =
      [ObfuscateRule.regexR "AKIA[0-9A-Z]\x7b16\x7d" "FileContents",
       ObfuscateRule.regexR "(ghp_[A-Za-z0-9]\x7b36\x7d|github_pat_[A-Za-z0-9_]\x7b82\x7d)"
         "FileContents"] ∧
    (generate_config_core [("github_token", 1), ("aws_access_key", 1)] [] []).obfuscate.take 2 =
      [ObfuscateRule.regexR "(ghp_[A-Za-z0-9]\x7b36\x7d|github_pat_[A-Za-z0-9_]\x7b82\x7d)"
         "FileContents",
       ObfuscateRule.regexR "AKIA[0-9A-Z]\x7b16\x7d" "FileContents"] ∧
    (generate_config_core [("github_token", 1), ("aws_access_key", 1)] [] []).obfuscate.take
        (regexRulesCatalogOrder [("github_token", 1), ("aws_access_key", 1)]).length ≠
      regexRulesCatalogOrder [("github_token", 1), ("aws_access_key", 1)] := by
  refine ⟨by decide, by decide, by decide⟩

/-- C1 (amended): for every findings tally whose counts are positive, the
obfuscate list begins with the Regex rules for exactly the signature names
present in the tally, in the tally's key order (first-detection order, not
catalog order), and every rule after that initial Regex run is a
non-Regex rule (Keywords, Domain, IP or MAC). -/
theorem C1_regex_rules_first (t : List (String × Nat)) (d k : List String)
    (hpos : ∀ p ∈ t, 0 < p.2) :
    (generate_config_core t d k).obfuscate.takeWhile isRegexRule =
      t.filterMap
        (fun p => (lookupPattern p.1).map (fun pat => ObfuscateRule.regexR pat "FileContents")) ∧
    ∀ r ∈ (generate_config_core t d k).obfuscate.dropWhile isRegexRule, isRegexRule r = false :=
  obfuscate_decomp t d k

/-- Witness for C1's amended theorem at the tally `[aws_access_key ↦ 1]`. -/
theorem C1_regex_rules_first_witness :
    (∀ p ∈ [(("aws_access_key" : String), (1 : Nat))], 0 < p.2) ∧
    ((generate_config_core [("aws_access_key", 1)] [] []).obfuscate.takeWhile isRegexRule =
      [(("aws_access_key" : String), (1 : Nat))].filterMap
        (fun p => (lookupPattern p.1).map (fun pat => ObfuscateRule.regexR pat "FileContents")) ∧
    ∀ r ∈ (generate_config_core [("aws_access_key", 1)] [] []).obfuscate.dropWhile isRegexRule,
      isRegexRule r = false) :=
  ⟨by decide, C1_regex_rules_first [("aws_access_key", 1)] [] [] (by decide)⟩

/-- C2: for a keyword set (a duplicate-free list, up to permutation), the
replacement table maps the keywords in lexicographically sorted order to
the tokens `keyword-0001`, `keyword-0002`, ... 1-based in that order; its
key list is exactly the sorted keywords (duplicate-free, so the table is a
bijection onto its token range), no two entries share a token, and
building the table from any reordering of the same keyword set yields the
identical table. -/
theorem C2_replacement_table (ks1 ks2 : List String) (hnd : ks1.Nodup)
    (hperm : List.Perm ks1 ks2) :
    buildReplacementTable ks1 = buildReplacementTable ks2 ∧
    (buildReplacementTable ks1).map Prod.fst = sortedStrings ks1 ∧
    ((buildReplacementTable ks1).map Prod.fst).Nodup ∧
    (buildReplacementTable ks1).map Prod.snd =
      (List.range (sortedStrings ks1).length).map (fun i => tokenFor (i + 1)) ∧
    (∀ p ∈ buildReplacementTable ks1, ∀ q ∈ buildReplacementTable ks1, p.2 = q.2 → p = q) :=
  ⟨buildReplacementTable_eq_of_perm hperm, buildReplacementTable_map_fst ks1,
   by
     rw [buildReplacementTable_map_fst]
     exact ((sortedStrings_perm ks1).nodup_iff).mpr hnd,
   buildReplacementTable_map_snd ks1, buildReplacementTable_inj ks1⟩

/-- Witness for C2 at the keyword set `{"b", "a"}`, presented in two
different orders. -/
theorem C2_replacement_table_witness :
    (["b", "a"] : List String).Nodup ∧ List.Perm ["b", "a"] ["a", "b"] ∧
    (buildReplacementTable ["b", "a"] = buildReplacementTable ["a", "b"] ∧
    (buildReplacementTable ["b", "a"]).map Prod.fst = sortedStrings ["b", "a"] ∧
    ((buildReplacementTable ["b", "a"]).map Prod.fst).Nodup ∧
    (buildReplacementTable ["b", "a"]).map Prod.snd =
      (List.range (sortedStrings ["b", "a"]).length).map (fun i => tokenFor (i + 1)) ∧
    (∀ p ∈ buildReplacementTable ["b", "a"], ∀ q ∈ buildReplacementTable ["b", "a"],
      p.2 = q.2 → p = q)) :=
  ⟨by decide, by decide, C2_replacement_table ["b", "a"] ["a", "b"] (by decide) (by decide)⟩

set_option maxRecDepth 1000000 in
/-- C3: on a tree holding one pod log whose content is the literal
`AKIA1234567890ABCDEF1`, the secret scan tallies exactly
`aws_access_key ↦ 1`, and synthesis on that tally with empty domain and
keyword sets yields an obfuscate list holding exactly one Regex rule (the
aws_access_key pattern) followed by the fixed IP and MAC rules — no
Keywords and no Domain rule. -/
theorem C3_aws_scenario :
    scan_for_secret_patterns [demoLogFile] = [("aws_access_key", 1)] ∧
    (generate_config_core (scan_for_secret_patterns [demoLogFile]) [] []).obfuscate =
      [ObfuscateRule.regexR "AKIA[0-9A-Z]\x7b16\x7d" "FileContents",
       ObfuscateRule.ipR "Consistent" "All", ObfuscateRule.macR "Consistent" "All"] := by
  refine ⟨by decide, by decide⟩

/-- C4: on empty findings the obfuscate list is exactly the IP rule then
the MAC rule and the omit list is exactly the three fixed Kubernetes
omissions; moreover for every input the obfuscate list ends with the IP
and MAC rules in that order and the omit list is exactly those three
fixed entries. -/
theorem C4_fixed_rules (t : List (String × Nat)) (d k : List String) :
    generate_config_core [] [] [] =
      ⟨[ObfuscateRule.ipR "Consistent" "All", ObfuscateRule.macR "Consistent" "All"],
       [⟨"Secret", none⟩, ⟨"ConfigMap", none⟩,
        ⟨"CertificateSigningRequest", some "certificates.k8s.io/v1"⟩]⟩ ∧
    (∃ pre, (generate_config_core t d k).obfuscate =
      pre ++ [ObfuscateRule.ipR "Consistent" "All", ObfuscateRule.macR "Consistent" "All"]) ∧
    (generate_config_core t d k).omits =
      [⟨"Secret", none⟩, ⟨"ConfigMap", none⟩,
       ⟨"CertificateSigningRequest", some "certificates.k8s.io/v1"⟩] :=
  ⟨by decide, ⟨_, rfl⟩, rfl⟩

/-- C5: the secret scan opens no candidate whose size reaches the fixed
10 MiB ceiling (so in particular none above it); it content-scans at most
500 files (the budget counts exactly the successfully read opened files,
so files skipped for size or unreadability never count); its findings
depend only on the first 1 MiB of each file's content; and inserting an
oversized or an unreadable file anywhere in the tree changes neither the
findings nor the budget consumed, with no error. -/
theorem C5_scan_bounds (tree : List MGFile) :
    (∀ f ∈ (scanExtended tree).opened, f.size < 10 * 1024 * 1024) ∧
    (scanExtended tree).scanned ≤ 500 ∧
    (scanExtended tree).scanned = readableCount (scanExtended tree).opened ∧
    scan_for_secret_patterns (tree.map truncFile) = scan_for_secret_patterns tree ∧
    (∀ (t1 t2 : List MGFile) (g : MGFile), ¬ g.size < 10 * 1024 * 1024 →
      scan_for_secret_patterns (t1 ++ g :: t2) = scan_for_secret_patterns (t1 ++ t2) ∧
      (scanExtended (t1 ++ g :: t2)).scanned = (scanExtended (t1 ++ t2)).scanned) ∧
    (∀ (t1 t2 : List MGFile) (g : MGFile), g.readable = false →
      scan_for_secret_patterns (t1 ++ g :: t2) = scan_for_secret_patterns (t1 ++ t2) ∧
      (scanExtended (t1 ++ g :: t2)).scanned = (scanExtended (t1 ++ t2)).scanned) :=
  ⟨fun f hf => (scanExtended_opened tree f hf).2,
   (scanExtended_budget tree).1,
   (scanExtended_budget tree).2,
   (scan_trunc tree).1,
   fun t1 t2 g hg => scan_skip_neutral (scanNeutral_of_oversized hg) t1 t2,
   fun t1 t2 g hg => scan_skip_neutral (scanNeutral_of_unreadable hg) t1 t2⟩

set_option maxRecDepth 1000000 in
/-- Witness for C5: the scanned demo log is within the size ceiling, and
a 20 MiB file contributes nothing to findings or budget. -/
theorem C5_scan_bounds_witness :
    (demoLogFile ∈ (scanExtended [demoLogFile]).opened ∧
      demoLogFile.size < 10 * 1024 * 1024) ∧
    (¬ demoBigFile.size < 10 * 1024 * 1024 ∧
      (scan_for_secret_patterns ([demoLogFile] ++ demoBigFile :: []) =
        scan_for_secret_patterns ([demoLogFile] ++ []) ∧
      (scanExtended ([demoLogFile] ++ demoBigFile :: [])).scanned =
        (scanExtended ([demoLogFile] ++ [])).scanned)) :=
  ⟨⟨by decide, (C5_scan_bounds [demoLogFile]).1 demoLogFile (by decide)⟩,
   ⟨by decide, (C5_scan_bounds []).2.2.2.2.1 [demoLogFile] [] demoBigFile (by decide)⟩⟩

/-- C6: every domain the domain pass returns has been lowercased, and
ends with no entry of the fixed platform-domain exclusion set (suffix
test); on the demo route manifest the mixed-case custom host comes back
lowercased as `foo.mycompany.com` while the `foo.openshift.io` host is
excluded. -/
theorem C6_domain_filtering :
    (∀ (tree : List MGFile) (x : String), x ∈ discover_domain_names tree →
      ∀ e ∈ exclude_domains, pyEndsWith x e = false) ∧
    discover_domain_names [demoRouteFile] = ["foo.mycompany.com"] := by
  constructor
  · exact fun tree x hx => discover_domain_names_excluded tree x hx
  · set_option maxRecDepth 1000000 in decide

set_option maxRecDepth 1000000 in
/-- Witness for C6's universal part at the demo route manifest. -/
theorem C6_domain_filtering_witness :
    ("foo.mycompany.com" ∈ discover_domain_names [demoRouteFile]) ∧
    ("svc" ∈ exclude_domains) ∧
    pyEndsWith "foo.mycompany.com" "svc" = false :=
  ⟨by decide, by decide,
   C6_domain_filtering.1 [demoRouteFile] "foo.mycompany.com" (by decide) "svc" (by decide)⟩

/-- C7, as stated, is false in its label half: a label value that fails
the label filter (here `abc`, length 3) is nevertheless kept in the
KeywordSet when it coincides with the kept namespace name. -/
theorem C7_label_counterexample :
    ("abc" ∈ nsContrib [] ⟨some "abc", [("app", "abc")]⟩) ∧
    ¬ (3 < ("abc" : String).length) ∧
    ("abc" : String).data.contains '/' = false ∧
    prefixExcluded "abc" = false := by
  refine ⟨by decide, by decide, by decide, by decide⟩

/-- C7 (amended): in the namespace pass, the `metadata.name` is kept iff
it starts with no platform prefix (so `openshift-monitoring` is excluded
and `acme-billing` retained), and a label value is kept iff it passes the
label filter (no `/`, length > 3, no platform prefix) or it equals the
manifest's kept `metadata.name`. -/
theorem C7_namespace_keywords (nm v : String) (labels : List (String × String))
    (hv : ∃ kk, (kk, v) ∈ labels) :
    (nm ∈ nsContrib [] ⟨some nm, labels⟩ ↔ prefixExcluded nm = false) ∧
    (v ∈ nsContrib [] ⟨some nm, labels⟩ ↔
      labelKeep v = true ∨ (v = nm ∧ prefixExcluded nm = false)) ∧
    ("openshift-monitoring" ∉ nsContrib [] ⟨some "openshift-monitoring", []⟩) ∧
    ("acme-billing" ∈ nsContrib [] ⟨some "acme-billing", []⟩) :=
  ⟨nsContrib_mem_name nm labels, nsContrib_mem_label nm v labels hv, by decide, by decide⟩

/-- Witness for C7's amended theorem at a concrete manifest. -/
theorem C7_namespace_keywords_witness :
    (∃ kk, (kk, "payments-core") ∈ [("team", "payments-core")]) ∧
    (("acme-billing" ∈ nsContrib [] ⟨some "acme-billing", [("team", "payments-core")]⟩ ↔
        prefixExcluded "acme-billing" = false) ∧
    ("payments-core" ∈ nsContrib [] ⟨some "acme-billing", [("team", "payments-core")]⟩ ↔
      labelKeep "payments-core" = true ∨
        ("payments-core" = "acme-billing" ∧ prefixExcluded "acme-billing" = false)) ∧
    ("openshift-monitoring" ∉ nsContrib [] ⟨some "openshift-monitoring", []⟩) ∧
    ("acme-billing" ∈ nsContrib [] ⟨some "acme-billing", []⟩)) :=
  ⟨⟨"team", by decide⟩,
   C7_namespace_keywords "acme-billing" "payments-core" [("team", "payments-core")]
     ⟨"team", by decide⟩⟩

/-- C8: `is_high_entropy` holds exactly when the string reaches the
minimum length, starts with none of the fixed known-benign prefixes, and
has Shannon entropy strictly above the threshold — so it is false for any
shorter string regardless of content and false for the allow-listed
prefixes; as a function of its arguments it is pure and deterministic. -/
theorem C8_is_high_entropy (v : String) (t : ℝ) (m : Nat) :
    is_high_entropy v t m ↔
      (m ≤ v.length ∧ benignPrefixes.any (fun p => pyStartsWith v p) = false ∧
        t < calculate_entropy v) := by
  unfold is_high_entropy
  split_ifs with h1 h2
  · constructor
    · exact fun h => h.elim
    · rintro ⟨hm, _, _⟩
      omega
  · constructor
    · exact fun h => h.elim
    · rintro ⟨_, hb, _⟩
      simp [h2] at hb
  · constructor
    · intro h
      refine ⟨by omega, ?_, h⟩
      simpa using h2
    · rintro ⟨_, _, h⟩
      exact h

/-- C9: each per-file failure is contained within its owning discovery
pass, contributing nothing to that pass's findings and aborting nothing:
a file that fails to open or read (permission or decode error) leaves the
secret scan, the domain pass and the image pass exactly as on the tree
without it; a file whose YAML parsing fails — even one that reads fine —
leaves the namespace pass (and, off the pod glob, the whole keyword pass)
unchanged; and a fully unreadable, unparsable file leaves the keyword
pass and the overall generated configuration unchanged. -/
theorem C9_per_file_errors_contained (t1 t2 : List MGFile) (g : MGFile) :
    (g.readable = false →
      scan_for_secret_patterns (t1 ++ g :: t2) = scan_for_secret_patterns (t1 ++ t2)) ∧
    (g.readable = false →
      discover_domain_names (t1 ++ g :: t2) = discover_domain_names (t1 ++ t2)) ∧
    (g.nsParse = none →
      ∀ acc, nsPass (t1 ++ g :: t2) acc = nsPass (t1 ++ t2) acc) ∧
    (g.readable = false →
      ∀ sc acc, imagePassAux sc (globFiles (t1 ++ g :: t2) pod_pattern) acc =
        imagePassAux sc (globFiles (t1 ++ t2) pod_pattern) acc) ∧
    (g.nsParse = none → pathMatches pod_pattern g.path = false →
      discover_proprietary_keywords (t1 ++ g :: t2) = discover_proprietary_keywords (t1 ++ t2)) ∧
    (g.readable = false → g.nsParse = none →
      discover_proprietary_keywords (t1 ++ g :: t2) = discover_proprietary_keywords (t1 ++ t2) ∧
      generate_config (t1 ++ g :: t2) = generate_config (t1 ++ t2)) := by
  refine ⟨fun hg => (scan_skip_neutral (scanNeutral_of_unreadable hg) t1 t2).1,
    fun hg => discover_domain_names_skip hg t1 t2,
    fun hg acc => nsPass_skip hg t1 t2 acc,
    fun hg sc acc => imagePass_tree_skip hg t1 t2 sc acc,
    fun hg hm => keywords_skip_unparsable hg hm t1 t2,
    fun hg1 hg2 => ⟨discover_proprietary_keywords_skip hg1 hg2 t1 t2, ?_⟩⟩
  unfold generate_config
  rw [(scan_skip_neutral (scanNeutral_of_unreadable hg1) t1 t2).1,
    discover_domain_names_skip hg1 t1 t2, discover_proprietary_keywords_skip hg1 hg2 t1 t2]

/-- Witness for C9, exercising both failure modes: a readable manifest
whose YAML parse fails is contained in the namespace pass (and, off the
pod glob, the whole keyword pass), and an unreadable pod log is contained
in every pass and in the overall configuration. -/
theorem C9_per_file_errors_contained_witness :
    demoBadYamlFile.readable = true ∧ demoBadYamlFile.nsParse = none ∧
    pathMatches pod_pattern demoBadYamlFile.path = false ∧
    (∀ acc, nsPass ([demoLogFile] ++ demoBadYamlFile :: []) acc =
      nsPass ([demoLogFile] ++ []) acc) ∧
    discover_proprietary_keywords ([demoLogFile] ++ demoBadYamlFile :: []) =
      discover_proprietary_keywords ([demoLogFile] ++ []) ∧
    demoBrokenFile.readable = false ∧ demoBrokenFile.nsParse = none ∧
    (scan_for_secret_patterns ([demoLogFile] ++ demoBrokenFile :: []) =
      scan_for_secret_patterns ([demoLogFile] ++ [])) ∧
    (discover_domain_names ([demoLogFile] ++ demoBrokenFile :: []) =
      discover_domain_names ([demoLogFile] ++ [])) ∧
    (∀ sc acc, imagePassAux sc (globFiles ([demoLogFile] ++ demoBrokenFile :: []) pod_pattern) acc =
      imagePassAux sc (globFiles ([demoLogFile] ++ []) pod_pattern) acc) ∧
    (discover_proprietary_keywords ([demoLogFile] ++ demoBrokenFile :: []) =
      discover_proprietary_keywords ([demoLogFile] ++ [])) ∧
    (generate_config ([demoLogFile] ++ demoBrokenFile :: []) =
      generate_config ([demoLogFile] ++ [])) :=
  ⟨rfl, rfl, by decide,
   (C9_per_file_errors_contained [demoLogFile] [] demoBadYamlFile).2.2.1 rfl,
   (C9_per_file_errors_contained [demoLogFile] [] demoBadYamlFile).2.2.2.2.1 rfl (by decide),
   rfl, rfl,
   (C9_per_file_errors_contained [demoLogFile] [] demoBrokenFile).1 rfl,
   (C9_per_file_errors_contained [demoLogFile] [] demoBrokenFile).2.1 rfl,
   (C9_per_file_errors_contained [demoLogFile] [] demoBrokenFile).2.2.2.1 rfl,
   ((C9_per_file_errors_contained [demoLogFile] [] demoBrokenFile).2.2.2.2.2 rfl rfl).1,
   ((C9_per_file_errors_contained [demoLogFile] [] demoBrokenFile).2.2.2.2.2 rfl rfl).2⟩

/-- C10: the domain exclusion is a plain textual suffix test with no
label boundary: any candidate whose lowercased text ends with the
characters of an excluded entry is dropped, even when it is not a
subdomain of an excluded platform domain — on the demo manifest both
`notredhat.com` (ending in `redhat.com`) and `foo.websvc` (ending in
`svc`) are dropped, leaving an empty DomainSet. -/
theorem C10_suffix_no_boundary :
    (∀ (tree : List MGFile) (x e : String), e ∈ exclude_domains → pyEndsWith x e = true →
      x ∉ discover_domain_names tree) ∧
    discover_domain_names [demoRouteFile10] = [] := by
  constructor
  · intro tree x e he hx hmem
    have h := discover_domain_names_excluded tree x hmem e he
    rw [hx] at h
    exact absurd h (by simp)
  · set_option maxRecDepth 1000000 in decide

set_option maxRecDepth 1000000 in
/-- Witness for C10's universal part: `notredhat.com` ends with
`redhat.com` and is indeed absent from the demo result. -/
theorem C10_suffix_no_boundary_witness :
    ("redhat.com" ∈ exclude_domains) ∧
    pyEndsWith "notredhat.com" "redhat.com" = true ∧
    "notredhat.com" ∉ discover_domain_names [demoRouteFile10] :=
  ⟨by decide, by decide,
   C10_suffix_no_boundary.1 [demoRouteFile10] "notredhat.com" "redhat.com" (by decide)
     (by decide)⟩
